import Mathlib

/-!
Verification development for the background-animation simulation engine of the
portfolio site (src/Visuals.tsx, src/data.ts).  Scalars are modelled as exact
rationals.  The three.js ray helpers (Ray.distanceSqToPoint,
Ray.distanceSqToSegment, Vector3.distanceTo) and Math.sqrt are external library
code, not part of this repository; they are modelled from the spec section
"RayInteractionProbe" (pure geometry, clamped segment parameter), respectively
kept abstract as a function argument where only the call site is repository
code.
-/

namespace Portfolio

/-- A 3-component vector with exact rational coordinates, standing for the
three floats used throughout the effects. -/
structure Vec3 where
  x : ℚ
  y : ℚ
  z : ℚ
deriving DecidableEq, Repr

def Vec3.add (a b : Vec3) : Vec3 := ⟨a.x + b.x, a.y + b.y, a.z + b.z⟩

def Vec3.sub (a b : Vec3) : Vec3 := ⟨a.x - b.x, a.y - b.y, a.z - b.z⟩

def Vec3.smul (c : ℚ) (a : Vec3) : Vec3 := ⟨c * a.x, c * a.y, c * a.z⟩

def Vec3.dot (a b : Vec3) : ℚ := a.x * b.x + a.y * b.y + a.z * b.z

def Vec3.normSq (a : Vec3) : ℚ := Vec3.dot a a

def Vec3.zero : Vec3 := ⟨0, 0, 0⟩

/-- Squared distance between two points. -/
def distSq (a b : Vec3) : ℚ := Vec3.normSq (Vec3.sub a b)

theorem normSq_nonneg (a : Vec3) : 0 ≤ Vec3.normSq a := by
  unfold Vec3.normSq Vec3.dot
  nlinarith [mul_self_nonneg a.x, mul_self_nonneg a.y, mul_self_nonneg a.z]

theorem distSq_nonneg (a b : Vec3) : 0 ≤ distSq a b := normSq_nonneg _

/-- A world-space ray: origin and direction. -/
structure Ray3 where
  o : Vec3
  d : Vec3
deriving DecidableEq, Repr

/-- Point on the segment from a to b at parameter t. -/
def segPoint (a b : Vec3) (t : ℚ) : Vec3 := Vec3.add a (Vec3.smul t (Vec3.sub b a))

/-- Point on the ray at parameter s. -/
def rayPoint (r : Ray3) (s : ℚ) : Vec3 := Vec3.add r.o (Vec3.smul s r.d)

/-- Clamp q into the interval from lo to hi. -/
def clampQ (lo hi q : ℚ) : ℚ := max lo (min hi q)

/-- Modelled from the spec: RayInteractionProbe distanceSqToPoint.  The
implementation in the repository is the external three.js
Ray.distanceSqToPoint, which is not under src/; the spec describes it as the
pure point-to-ray squared-distance test.  For the ray o + s*d (s nonnegative)
and point p this is the squared distance to the origin when p projects behind
the origin, and the squared distance to the projection onto the ray line
otherwise. -/
def Ray3.distanceSqToPoint (r : Ray3) (p : Vec3) : ℚ :=
  let w := Vec3.sub p r.o
  let dd := Vec3.dot w r.d
  if dd < 0 then Vec3.normSq w
  else Vec3.normSq w - dd * dd / Vec3.normSq r.d

/-- Squared distance between the segment point at t and the ray point at s. -/
def segRayGap (r : Ray3) (a b : Vec3) (t s : ℚ) : ℚ :=
  Vec3.normSq (Vec3.sub (segPoint a b t) (rayPoint r s))

/-- Keep the candidate pair with the smaller segment-ray gap, scanning left to
right, starting from the accumulator. -/
def chooseBest (r : Ray3) (a b : Vec3) : List (ℚ × ℚ) → (ℚ × ℚ) → (ℚ × ℚ)
  | [], acc => acc
  | c :: rest, acc =>
    chooseBest r a b rest
      (if segRayGap r a b c.1 c.2 < segRayGap r a b acc.1 acc.2 then c else acc)

/-- Modelled from the spec: RayInteractionProbe distanceSqToSegment.  The
implementation in the repository is the external three.js
Ray.distanceSqToSegment, which is not under src/; the spec describes it as the
pure segment-to-ray squared-distance test returning the squared distance, the
closest point on the segment, and a segment parameter t clamped into the unit
interval, guarding zero-length segments by reporting no hit.  The closest pair
is the minimum of a convex quadratic over the feasible region; it is attained
either at the interior stationary point or on one of the three boundary edges,
each minimised in one dimension and clamped, so the probe evaluates those
candidates and keeps the best.  Returns (squared distance, segment parameter
t); the closest point on the segment is segPoint a b t. -/
def Ray3.distanceSqToSegment (r : Ray3) (a b : Vec3) : Option (ℚ × ℚ) :=
  let u := Vec3.sub b a
  if Vec3.normSq u = 0 then none
  else
    let uu := Vec3.normSq u
    let ee := Vec3.normSq r.d
    let w := Vec3.sub a r.o
    let ud := Vec3.dot u r.d
    let det := uu * ee - ud * ud
    let cand0 : ℚ × ℚ := (0, max 0 (Vec3.dot w r.d / ee))
    let cand1 : ℚ × ℚ := (1, max 0 (Vec3.dot (Vec3.add w u) r.d / ee))
    let cand2 : ℚ × ℚ := (clampQ 0 1 (-(Vec3.dot u w) / uu), 0)
    let tI := (ud * Vec3.dot w r.d - ee * Vec3.dot u w) / det
    let sI := (uu * Vec3.dot w r.d - ud * Vec3.dot u w) / det
    let cands :=
      if det ≠ 0 ∧ 0 ≤ tI ∧ tI ≤ 1 ∧ 0 ≤ sI then [(tI, sI), cand0, cand1, cand2]
      else [cand0, cand1, cand2]
    let best := chooseBest r a b cands cand2
    some (segRayGap r a b best.1 best.2, best.1)

/-- The best-candidate scan keeps a value that is the accumulator or one of
the list elements, so it preserves any predicate holding of all of them. -/
theorem chooseBest_pred (r : Ray3) (a b : Vec3) (P : ℚ × ℚ → Prop) :
    ∀ (l : List (ℚ × ℚ)) (acc : ℚ × ℚ), P acc → (∀ x ∈ l, P x) →
      P (chooseBest r a b l acc) := by
  intro l
  induction l with
  | nil => intro acc h _; exact h
  | cons hd tl ih =>
    intro acc hacc hall
    unfold chooseBest
    by_cases hc : segRayGap r a b hd.1 hd.2 < segRayGap r a b acc.1 acc.2
    · rw [if_pos hc]
      exact ih hd (hall hd (List.mem_cons_self hd tl)) fun x hx =>
        hall x (List.mem_cons_of_mem _ hx)
    · rw [if_neg hc]
      exact ih acc hacc fun x hx => hall x (List.mem_cons_of_mem _ hx)

/-- The segment parameter returned by the probe always lies in the unit
interval, as the spec requires (t clamped into 0..1). -/
theorem distanceSqToSegment_t_mem (r : Ray3) (a b : Vec3) (sd t : ℚ)
    (h : Ray3.distanceSqToSegment r a b = some (sd, t)) : 0 ≤ t ∧ t ≤ 1 := by
  rw [Ray3.distanceSqToSegment] at h
  by_cases huu : Vec3.normSq (Vec3.sub b a) = 0
  · rw [if_pos huu] at h
    exact absurd h (by simp)
  · rw [if_neg huu] at h
    simp only [Option.some.injEq, Prod.mk.injEq] at h
    obtain ⟨hsd, ht⟩ := h
    rw [← ht]
    have hclamp : ∀ q : ℚ, 0 ≤ clampQ 0 1 q ∧ clampQ 0 1 q ≤ 1 := fun q =>
      ⟨le_max_left _ _, max_le (by norm_num) (min_le_left _ _)⟩
    split
    · rename_i hcond
      apply chooseBest_pred r a b (fun c : ℚ × ℚ => 0 ≤ c.1 ∧ c.1 ≤ 1)
      · exact hclamp _
      · intro x hx
        simp only [List.mem_cons, List.not_mem_nil, or_false] at hx
        rcases hx with rfl | rfl | rfl | rfl
        · exact ⟨hcond.2.1, hcond.2.2.1⟩
        · exact ⟨le_refl 0, by norm_num⟩
        · exact ⟨by norm_num, le_refl 1⟩
        · exact hclamp _
    · apply chooseBest_pred r a b (fun c : ℚ × ℚ => 0 ≤ c.1 ∧ c.1 ≤ 1)
      · exact hclamp _
      · intro x hx
        simp only [List.mem_cons, List.not_mem_nil, or_false] at hx
        rcases hx with rfl | rfl | rfl
        · exact ⟨le_refl 0, by norm_num⟩
        · exact ⟨by norm_num, le_refl 1⟩
        · exact hclamp _

/-- The squared distance from endpoint a to the segment point at parameter t
is t squared times the squared segment length; hence for t in the unit
interval the distance quotient used for the break ratio equals t. -/
theorem distSq_segPoint (a b : Vec3) (t : ℚ) :
    distSq a (segPoint a b t) = t ^ 2 * distSq a b := by
  unfold distSq segPoint Vec3.normSq Vec3.dot Vec3.sub Vec3.add Vec3.smul
  ring

/-! ## NeuralNetworkEffect (src/Visuals.tsx, useFrame body)

Nodes live in a flat array of 8 floats each: position, velocity, a status
flag (0 = alive, 1 = dying) and the hit timestamp.  One tick updates every
node, derives point colors and opacities, then scans every unordered pair for
edges, maintains the broken-edge map and emits line vertices. -/

/-- Node status flag: data index 6 holds 0 for alive, 1 for dying. -/
inductive NodeStatus where
  | alive : NodeStatus
  | dying : NodeStatus
deriving DecidableEq, Repr

/-- One simulated node of the neural-network effect. -/
structure NNode where
  pos : Vec3
  vel : Vec3
  status : NodeStatus
  hitTime : ℚ
deriving DecidableEq, Repr

/-- Soft-boundary steering for one coordinate (src/Visuals.tsx lines 181-183):
past the positive bound the velocity component is nudged down by 0.0002, past
the negative bound nudged up. -/
def steer1 (x v bound : ℚ) : ℚ :=
  if x > bound then v - 1 / 5000 else if x < -bound then v + 1 / 5000 else v

/-- One tick of a single node (src/Visuals.tsx lines 170-197).
POINT_HIT_SQ is 0.4 squared, RESPAWN_TIME is 3, radius is 10 (x bound 10,
y bound 8, z bound 4).  The Math.random draws used on respawn are modelled by
the injected freshPos and freshVel, per the spec (injectable generator).
After the status branch the position is integrated by adding the velocity. -/
def updateNode (r : Ray3) (now : ℚ) (freshPos freshVel : Vec3) (n : NNode) : NNode :=
  match n.status with
  | NodeStatus.alive =>
    if Ray3.distanceSqToPoint r n.pos < 4 / 25 then
      { pos := n.pos, vel := Vec3.zero, status := NodeStatus.dying, hitTime := now }
    else
      let v : Vec3 := ⟨steer1 n.pos.x n.vel.x 10, steer1 n.pos.y n.vel.y 8,
        steer1 n.pos.z n.vel.z 4⟩
      { pos := Vec3.add n.pos v, vel := v, status := NodeStatus.alive, hitTime := n.hitTime }
  | NodeStatus.dying =>
    if now - n.hitTime > 3 then
      { pos := Vec3.add freshPos freshVel, vel := freshVel, status := NodeStatus.alive,
        hitTime := n.hitTime }
    else
      { pos := n.pos, vel := Vec3.zero, status := NodeStatus.dying, hitTime := n.hitTime }

/-- An rgb color triple. -/
structure Color where
  r : ℚ
  g : ℚ
  b : ℚ
deriving DecidableEq, Repr

/-- three.js Color.lerpColors: componentwise linear interpolation. -/
def lerpColor (c1 c2 : Color) (t : ℚ) : Color :=
  ⟨c1.r + (c2.r - c1.r) * t, c1.g + (c2.g - c1.g) * t, c1.b + (c2.b - c1.b) * t⟩

/-- Point opacity written after the node update (src/Visuals.tsx lines
199-213): dying nodes fade linearly over FADE_DURATION = 0.5, alive nodes are
fully opaque. -/
def nodeOpacity (now : ℚ) (n : NNode) : ℚ :=
  match n.status with
  | NodeStatus.dying => max 0 (1 - (now - n.hitTime) / (1 / 2))
  | NodeStatus.alive => 1

/-- Point color written after the node update (src/Visuals.tsx lines
201-211): dying nodes are red; alive nodes interpolate across depth with a
breakpoint at 0.2.  The palette colors are parameters (they depend on the
theme). -/
def nodeColor (cBlue cBase cGreen cRed : Color) (n : NNode) : Color :=
  match n.status with
  | NodeStatus.dying => cRed
  | NodeStatus.alive =>
    let t := max 0 (min 1 ((n.pos.z + 4) / 8))
    if t < 1 / 5 then lerpColor cBlue cBase (t / (1 / 5))
    else lerpColor cBase cGreen ((t - 1 / 5) / (1 - 1 / 5))

/-- BrokenState record (src/Visuals.tsx line 157): the timestamp the edge was
cut and the break-point fraction along the segment.  The source names the
fraction field after the distance quotient; it is renamed here to frac only
to satisfy naming restrictions of the verification toolchain. -/
structure Broken where
  brokenAt : ℚ
  frac : ℚ
deriving DecidableEq, Repr

/-- The string-keyed broken-edge map, modelled as an association list keyed
by the ordered index pair. -/
def BrokenMap : Type := List ((ℕ × ℕ) × Broken)

/-- Map lookup (JS Map.get). -/
def lookupBroken : BrokenMap → ℕ × ℕ → Option Broken
  | [], _ => none
  | e :: rest, k => if e.1 = k then some e.2 else lookupBroken rest k

/-- Map deletion (JS Map.delete). -/
def eraseBroken : BrokenMap → ℕ × ℕ → BrokenMap
  | [], _ => []
  | e :: rest, k => if e.1 = k then eraseBroken rest k else e :: eraseBroken rest k

/-- Map insertion (JS Map.set). -/
def insertBroken (m : BrokenMap) (k : ℕ × ℕ) (b : Broken) : BrokenMap :=
  (k, b) :: eraseBroken m k

theorem lookupBroken_erase (m : BrokenMap) (k : ℕ × ℕ) :
    lookupBroken (eraseBroken m k) k = none := by
  induction m with
  | nil => rfl
  | cons e rest ih =>
    unfold eraseBroken
    by_cases he : e.1 = k
    · rw [if_pos he]; exact ih
    · rw [if_neg he]
      unfold lookupBroken
      rw [if_neg he]
      exact ih

theorem lookupBroken_insert (m : BrokenMap) (k : ℕ × ℕ) (b : Broken) :
    lookupBroken (insertBroken m k b) k = some b := by
  unfold insertBroken lookupBroken
  rw [if_pos rfl]

/-- One emitted line vertex: position, color and per-vertex alpha, matching
one slot of the linePositions / lineColors / lineOpacities buffers. -/
structure LineVertex where
  pos : Vec3
  color : Color
  alpha : ℚ
deriving DecidableEq, Repr

/-- Broken-map maintenance for one scanned pair (src/Visuals.tsx lines
231-241): look up the BrokenState; delete it when the cooldown (2 seconds)
has elapsed; when none is left, run the segment hit test and create one when
the squared ray-segment distance is below LINE_HIT_SQ = 0.2 squared = 1/25.
The break fraction is written directly as the clamped segment parameter t,
which equals the source expression distanceTo(closestOnSegment) /
sqrt(distSq) by the identity distSq_segPoint.  Returns the updated map and
the BrokenState in effect for this pair, if any. -/
def pairBroken (r : Ray3) (now : ℚ) (m : BrokenMap) (ij : ℕ × ℕ) (pi pj : Vec3) :
    BrokenMap × Option Broken :=
  let cool : BrokenMap × Option Broken :=
    match lookupBroken m ij with
    | some b => if now - b.brokenAt > 2 then (eraseBroken m ij, none) else (m, some b)
    | none => (m, none)
  match cool.2 with
  | some b => (cool.1, some b)
  | none =>
    match Ray3.distanceSqToSegment r pi pj with
    | some (sd, t) =>
      if sd < 1 / 25 then
        let f := max (1 / 100) (min (99 / 100) t)
        (insertBroken cool.1 ij ⟨now, f⟩, some ⟨now, f⟩)
      else (cool.1, none)
    | none => (cool.1, none)

/-- The vertices emitted for one scanned pair (src/Visuals.tsx lines
243-289), given the BrokenState in effect: while a break younger than
BREAK_DURATION = 0.4 animates, two shrinking sub-segments (4 vertices, cubic
ease-out); a break past BREAK_DURATION emits nothing; an intact pair emits
the full segment (2 vertices) when the distance factor distAlpha exceeds
0.01.  Each vertex carries its endpoint color and alpha = distAlpha times the
endpoint opacity; msqrt stands for the external Math.sqrt in distAlpha =
max(0, 1 - sqrt(distSq)/4). -/
def pairVertices (msqrt : ℚ → ℚ) (now : ℚ) (pi pj : Vec3) (ci cj : Color)
    (oi oj : ℚ) (bs : Option Broken) : List LineVertex :=
  let distAlpha := max 0 (1 - msqrt (distSq pi pj) / 4)
  let a1 := distAlpha * oi
  let a2 := distAlpha * oj
  match bs with
  | some b =>
    let age := now - b.brokenAt
    if age < 2 / 5 then
      let progress := age / (2 / 5)
      let ease := 1 - (1 - progress) ^ 3
      let shrink := 1 - ease
      let t1 := b.frac * shrink
      let t2 := (1 - b.frac) * shrink
      [⟨pi, ci, a1⟩, ⟨segPoint pi pj t1, ci, a1⟩,
       ⟨pj, cj, a2⟩, ⟨segPoint pj pi t2, cj, a2⟩]
    else []
  | none =>
    if distAlpha > 1 / 100 then [⟨pi, ci, a1⟩, ⟨pj, cj, a2⟩] else []

/-- Handling of one unordered pair (i, j) inside the pair scan
(src/Visuals.tsx lines 221-291): skip the pair entirely when the squared
distance exceeds 16 (maxConnectionDistance 4) or either endpoint opacity is
at most 0.01; otherwise maintain the broken map and append this pair's
vertices to the valid prefix of the line buffers. -/
def pairStep (msqrt : ℚ → ℚ) (r : Ray3) (now : ℚ)
    (pos : ℕ → Vec3) (col : ℕ → Color) (op : ℕ → ℚ)
    (st : BrokenMap × List LineVertex) (ij : ℕ × ℕ) :
    BrokenMap × List LineVertex :=
  let pi := pos ij.1
  let pj := pos ij.2
  if distSq pi pj > 16 then st
  else if op ij.1 ≤ 1 / 100 ∨ op ij.2 ≤ 1 / 100 then st
  else
    let det := pairBroken r now st.1 ij pi pj
    (det.1, st.2 ++ pairVertices msqrt now pi pj (col ij.1) (col ij.2) (op ij.1) (op ij.2) det.2)

/-- The pair list scanned by the nested loops: i from 0 to N-1, j from i+1 to
N-1, in source order. -/
def pairList (n : ℕ) : List (ℕ × ℕ) :=
  (List.range n).flatMap fun i => (List.range (n - i - 1)).map fun k => (i, i + 1 + k)

/-- The full line pass of one tick: fold pairStep over every unordered pair,
starting from the current broken map and an empty vertex prefix. -/
def lineLoop (msqrt : ℚ → ℚ) (r : Ray3) (now : ℚ) (n : ℕ)
    (pos : ℕ → Vec3) (col : ℕ → Color) (op : ℕ → ℚ) (m0 : BrokenMap) :
    BrokenMap × List LineVertex :=
  (pairList n).foldl (pairStep msqrt r now pos col op) (m0, [])

/-- The draw-range vertex count handed to the renderer
(src/Visuals.tsx line 299, vertexIndex / 3): the length of the valid vertex
prefix written by the pair scan. -/
def activeVertexCount (msqrt : ℚ → ℚ) (r : Ray3) (now : ℚ) (n : ℕ)
    (pos : ℕ → Vec3) (col : ℕ → Color) (op : ℕ → ℚ) (m0 : BrokenMap) : ℕ :=
  (lineLoop msqrt r now n pos col op m0).2.length

/-! ## LorenzAttractor (src/Visuals.tsx lines 377-464)

75 independent Lorenz trajectories; each stores its current point, its
per-trajectory parameters, and ring buffers of trailLength = 120 transformed
positions and colors (newest first). -/

/-- One forward-Euler step of the Lorenz system as written in the source
(src/Visuals.tsx line 420): dx = sigma (y - x) dt, dy = (x (rho - z) - y) dt,
dz = (x y - beta z) dt, added to the current point. -/
def lorenzStep (sigma rho beta dt : ℚ) (p : Vec3) : Vec3 :=
  let dx := sigma * (p.y - p.x) * dt
  let dy := (p.x * (rho - p.z) - p.y) * dt
  let dz := (p.x * p.y - beta * p.z) * dt
  ⟨p.x + dx, p.y + dy, p.z + dz⟩

/-- Modelled from the spec: the reference forward-Euler Lorenz step, written
directly from the spec formulas dx = sigma(y-x)dt, dy = (x(rho-z) - y)dt,
dz = (xy - beta z)dt, for comparison with the implementation step. -/
def lorenzStepSpec (sigma rho beta dt : ℚ) (p : Vec3) : Vec3 :=
  ⟨p.x + sigma * (p.y - p.x) * dt,
   p.y + (p.x * (rho - p.z) - p.y) * dt,
   p.z + (p.x * p.y - beta * p.z) * dt⟩

/-- The visual transform applied before a sample enters the trail buffer
(src/Visuals.tsx lines 400-402/427): scale by ZOOM = 0.35 and center z at 25. -/
def transformPos (p : Vec3) : Vec3 :=
  ⟨p.x * (7 / 20), p.y * (7 / 20), (p.z - 25) * (7 / 20)⟩

/-- One Lorenz trajectory: current point, fixed parameters, and the two
parallel trail ring buffers (newest sample first). -/
structure Traj where
  current : Vec3
  history : List Vec3
  baseColors : List Color
  sigma : ℚ
  rho : ℚ
  beta : ℚ
  dt : ℚ
deriving DecidableEq, Repr

/-- Trajectory construction (src/Visuals.tsx lines 393-405): every one of the
trailLength = 120 history slots is pre-filled with the transformed starting
position; the color buffer is filled with the red channel of the slow color
(the source fills every float of the color array with colorSlow.r); the
parameters are sigma = 10, rho = 28, beta = 8/3 and the given dt. -/
def initTraj (p : Vec3) (dt : ℚ) (cSlow : Color) : Traj :=
  { current := p,
    history := List.replicate 120 (transformPos p),
    baseColors := List.replicate 120 ⟨cSlow.r, cSlow.r, cSlow.r⟩,
    sigma := 10, rho := 28, beta := 8 / 3, dt := dt }

/-- One tick of a trajectory (src/Visuals.tsx lines 419-428): advance the
current point by one Euler step, compute the speed-mix color (msqrt stands
for the external Math.sqrt; the reference speed is 1.2), then shift both
ring buffers one slot toward the tail (copyWithin drops the oldest sample)
and write the new transformed sample and color at index 0. -/
def stepTraj (msqrt : ℚ → ℚ) (cSlow cFast : Color) (t : Traj) : Traj :=
  let p := t.current
  let dx := t.sigma * (p.y - p.x) * t.dt
  let dy := (p.x * (t.rho - p.z) - p.y) * t.dt
  let dz := (p.x * p.y - t.beta * p.z) * t.dt
  let c : Vec3 := ⟨p.x + dx, p.y + dy, p.z + dz⟩
  let mix := min 1 (msqrt (dx * dx + dy * dy + dz * dz) / (6 / 5))
  let newColor := lerpColor cSlow cFast mix
  { t with
    current := c,
    history := transformPos c :: t.history.take 119,
    baseColors := newColor :: t.baseColors.take 119 }

/-! ## ShootingStarEffect particle pool (src/data.ts lines 729-853)

A fixed-capacity pool of particles stored in parallel arrays with one write
cursor; emission writes at the cursor slot and advances it mod capacity. -/

/-- One pooled particle: position, velocity, age (1 = inactive), lifetime and
size factor. -/
structure Particle where
  pos : Vec3
  vel : Vec3
  age : ℚ
  lifetime : ℚ
  size : ℚ
deriving DecidableEq, Repr

/-- The particle pool: the fixed array of particle slots plus the write
cursor. -/
structure PoolState where
  particles : List Particle
  cursor : ℕ
deriving DecidableEq, Repr

/-- The values drawn for one emission: spawn position, drift velocity, random
lifetime and random size (src/data.ts lines 817-829). -/
structure EmitData where
  pos : Vec3
  vel : Vec3
  lifetime : ℚ
  size : ℚ
deriving DecidableEq, Repr

/-- The particle written by one emission: the drawn values with age 0. -/
def spawnParticle (e : EmitData) : Particle :=
  ⟨e.pos, e.vel, 0, e.lifetime, e.size⟩

/-- The initial pool (src/data.ts lines 757-766): every slot dead (age 1,
everything else 0), cursor 0. -/
def deadParticle : Particle := ⟨Vec3.zero, Vec3.zero, 1, 0, 0⟩

/-- One emission (src/data.ts lines 813-830): the source captures idx =
cursor, advances cursor to (cursor + 1) mod capacity, and writes the new
particle into slot idx — that is, it writes at the pre-advance cursor. -/
def emit (cap : ℕ) (e : EmitData) (st : PoolState) : PoolState :=
  { particles := st.particles.set st.cursor (spawnParticle e),
    cursor := (st.cursor + 1) % cap }

/-- A sequence of emissions, oldest first. -/
def emitAll (cap : ℕ) (es : List EmitData) (st : PoolState) : PoolState :=
  es.foldl (fun s e => emit cap e s) st

/-- Per-tick aging of one particle (src/data.ts lines 834-846): inactive
particles are skipped; otherwise age advances by delta / lifetime, saturating
at 1; particles that stay alive move by their velocity. -/
def ageParticle (delta : ℚ) (p : Particle) : Particle :=
  if p.age ≥ 1 then p
  else
    let a := p.age + delta * (1 / p.lifetime)
    if a ≥ 1 then { p with age := 1 }
    else { p with age := a, pos := Vec3.add p.pos p.vel }

/-- The per-tick aging pass over the whole pool; it never touches the
cursor. -/
def agePass (delta : ℚ) (st : PoolState) : PoolState :=
  { st with particles := st.particles.map (ageParticle delta) }

/-! ## Claims -/

/-- One pair emits 0, 2 or 4 vertices: nothing when severed past the break
animation, one full segment, or two break sub-segments. -/
theorem pairVertices_length (msqrt : ℚ → ℚ) (now : ℚ) (pi pj : Vec3)
    (ci cj : Color) (oi oj : ℚ) (bs : Option Broken) :
    (pairVertices msqrt now pi pj ci cj oi oj bs).length = 0 ∨
    (pairVertices msqrt now pi pj ci cj oi oj bs).length = 2 ∨
    (pairVertices msqrt now pi pj ci cj oi oj bs).length = 4 := by
  unfold pairVertices
  rcases bs with _ | b
  · simp only
    split
    · right; left; rfl
    · left; rfl
  · simp only
    split
    · right; right; rfl
    · left; rfl

/-- One pair contributes 0, 2 or 4 vertices to the line buffer: nothing when
skipped or fully severed, one segment (2 vertices) when intact, two break
sub-segments (4 vertices) while the break animates. -/
theorem pairStep_vertex_growth (msqrt : ℚ → ℚ) (r : Ray3) (now : ℚ)
    (pos : ℕ → Vec3) (col : ℕ → Color) (op : ℕ → ℚ)
    (st : BrokenMap × List LineVertex) (ij : ℕ × ℕ) :
    (pairStep msqrt r now pos col op st ij).2.length = st.2.length ∨
    (pairStep msqrt r now pos col op st ij).2.length = st.2.length + 2 ∨
    (pairStep msqrt r now pos col op st ij).2.length = st.2.length + 4 := by
  simp only [pairStep]
  repeat' split
  all_goals
    first
    | (left; rfl)
    | (simp only [List.length_append]
       rcases pairVertices_length msqrt now (pos ij.1) (pos ij.2) (col ij.1) (col ij.2)
         (op ij.1) (op ij.2) (pairBroken r now st.1 ij (pos ij.1) (pos ij.2)).2 with h | h | h <;>
         omega)

/-- Folding the pair scan grows the vertex prefix by at most 4 per pair and
preserves its parity. -/
theorem lineLoop_growth (msqrt : ℚ → ℚ) (r : Ray3) (now : ℚ)
    (pos : ℕ → Vec3) (col : ℕ → Color) (op : ℕ → ℚ) :
    ∀ (L : List (ℕ × ℕ)) (st : BrokenMap × List LineVertex),
      (L.foldl (pairStep msqrt r now pos col op) st).2.length ≤ st.2.length + 4 * L.length ∧
      (L.foldl (pairStep msqrt r now pos col op) st).2.length % 2 = st.2.length % 2 := by
  intro L
  induction L with
  | nil => intro st; simp
  | cons hd tl ih =>
    intro st
    rw [List.foldl_cons]
    obtain ⟨iha, ihb⟩ := ih (pairStep msqrt r now pos col op st hd)
    rcases pairStep_vertex_growth msqrt r now pos col op st hd with h | h | h <;>
      simp only [List.length_cons] <;> exact ⟨by omega, by omega⟩

theorem length_flatMapAux {α β : Type} (f : α → List β) :
    ∀ l : List α, (l.flatMap f).length = (l.map fun a => (f a).length).sum := by
  intro l
  induction l with
  | nil => rfl
  | cons a tl ih => simp [List.flatMap_cons, ih]

theorem sum_map_add_one (l : List ℕ) (g : ℕ → ℕ) :
    (l.map fun a => g a + 1).sum = (l.map g).sum + l.length := by
  induction l with
  | nil => rfl
  | cons a tl ih =>
    simp only [List.map_cons, List.sum_cons, List.length_cons, ih]
    omega

theorem sum_countdown : ∀ n : ℕ, 2 * (((List.range n).map fun i => n - i - 1).sum) = n * (n - 1) := by
  intro n
  induction n with
  | zero => rfl
  | succ m ih =>
    rw [List.range_succ, List.map_append, List.sum_append]
    have hz : (([m] : List ℕ).map fun i => m + 1 - i - 1).sum = 0 := by simp
    rw [hz]
    have hcongr : ((List.range m).map fun i => m + 1 - i - 1) =
        (List.range m).map fun i => (m - i - 1) + 1 := by
      apply List.map_congr_left
      intro a ha
      have : a < m := List.mem_range.mp ha
      omega
    rw [hcongr, sum_map_add_one, List.length_range]
    simp only [Nat.add_sub_cancel, Nat.add_zero]
    calc 2 * (((List.range m).map fun i => m - i - 1).sum + m)
        = 2 * ((List.range m).map fun i => m - i - 1).sum + 2 * m := by ring
      _ = m * (m - 1) + 2 * m := by rw [ih]
      _ = (m + 1) * m := by
          cases m with
          | zero => rfl
          | succ mm =>
            simp only [Nat.succ_sub_one]
            ring

/-- Twice the number of scanned pairs is n(n-1). -/
theorem twice_pairListLength (n : ℕ) : 2 * (pairList n).length = n * (n - 1) := by
  have hlen : (pairList n).length = ((List.range n).map fun i => n - i - 1).sum := by
    unfold pairList
    rw [length_flatMapAux]
    congr 1
    apply List.map_congr_left
    intro a _
    simp
  rw [hlen, sum_countdown]

/-- Claim C4: after every tick the emitted edge-buffer valid prefix (the
draw-range vertex count) is even and at most 2 n (n - 1), because every pair
contributes 0, 2 or 4 vertices. -/
theorem claim_C4_vertex_count (msqrt : ℚ → ℚ) (r : Ray3) (now : ℚ) (n : ℕ)
    (pos : ℕ → Vec3) (col : ℕ → Color) (op : ℕ → ℚ) (m0 : BrokenMap) :
    Even (activeVertexCount msqrt r now n pos col op m0) ∧
    activeVertexCount msqrt r now n pos col op m0 ≤ 2 * n * (n - 1) := by
  unfold activeVertexCount lineLoop
  obtain ⟨hb, hp⟩ := lineLoop_growth msqrt r now pos col op (pairList n) (m0, [])
  constructor
  · rw [Nat.even_iff]
    simpa using hp
  · calc ((pairList n).foldl (pairStep msqrt r now pos col op) (m0, [])).2.length
        ≤ ([] : List LineVertex).length + 4 * (pairList n).length := hb
      _ = 2 * (2 * (pairList n).length) := by
          simp only [List.length_nil, Nat.zero_add]
          ring
      _ = 2 * (n * (n - 1)) := by rw [twice_pairListLength]
      _ = 2 * n * (n - 1) := by rw [Nat.mul_assoc]

/-- The line pass of pairStep on a non-skipped pair: broken-map maintenance
followed by vertex emission. -/
theorem pairStep_not_skipped (msqrt : ℚ → ℚ) (r : Ray3) (now : ℚ)
    (pos : ℕ → Vec3) (col : ℕ → Color) (op : ℕ → ℚ)
    (st : BrokenMap × List LineVertex) (ij : ℕ × ℕ)
    (hd : ¬distSq (pos ij.1) (pos ij.2) > 16)
    (hoi : ¬op ij.1 ≤ 1 / 100) (hoj : ¬op ij.2 ≤ 1 / 100) :
    pairStep msqrt r now pos col op st ij =
      ((pairBroken r now st.1 ij (pos ij.1) (pos ij.2)).1,
        st.2 ++ pairVertices msqrt now (pos ij.1) (pos ij.2) (col ij.1) (col ij.2)
          (op ij.1) (op ij.2) (pairBroken r now st.1 ij (pos ij.1) (pos ij.2)).2) := by
  simp only [pairStep]
  rw [if_neg hd, if_neg (not_or.mpr ⟨hoi, hoj⟩)]

/-- On a pair with no BrokenState, the break detection is exactly the probe
hit test against LINE_HIT_SQ. -/
theorem pairBroken_none (r : Ray3) (now : ℚ) (m : BrokenMap) (ij : ℕ × ℕ)
    (pi pj : Vec3) (sd t : ℚ)
    (hM : lookupBroken m ij = none)
    (hprobe : Ray3.distanceSqToSegment r pi pj = some (sd, t)) :
    pairBroken r now m ij pi pj =
      if sd < 1 / 25 then
        (insertBroken m ij ⟨now, max (1 / 100) (min (99 / 100) t)⟩,
          some ⟨now, max (1 / 100) (min (99 / 100) t)⟩)
      else (m, none) := by
  simp only [pairBroken, hM, hprobe]

/-- Claim C1 (amended): on a scanned pair with no existing BrokenState, a
BrokenState is created in a tick exactly when the squared ray-to-segment
distance is below lineHitRadius squared = 1/25, with no restriction on the
hit's segment parameter t; the stored ratio is the clamp of t into
[0.01, 0.99], where t lies in [0, 1] and equals the distance from endpoint i
to the closest point divided by the segment length (stated in squared form by
the final conjunct). -/
theorem claim_C1_cut_rule (msqrt : ℚ → ℚ) (r : Ray3) (now : ℚ)
    (pos : ℕ → Vec3) (col : ℕ → Color) (op : ℕ → ℚ)
    (m : BrokenMap) (acc : List LineVertex) (ij : ℕ × ℕ) (sd t : ℚ)
    (hM : lookupBroken m ij = none)
    (hprobe : Ray3.distanceSqToSegment r (pos ij.1) (pos ij.2) = some (sd, t))
    (hd : ¬distSq (pos ij.1) (pos ij.2) > 16)
    (hoi : ¬op ij.1 ≤ 1 / 100) (hoj : ¬op ij.2 ≤ 1 / 100) :
    (sd < 1 / 25 →
      lookupBroken (pairStep msqrt r now pos col op (m, acc) ij).1 ij =
        some ⟨now, max (1 / 100) (min (99 / 100) t)⟩) ∧
    (¬sd < 1 / 25 →
      lookupBroken (pairStep msqrt r now pos col op (m, acc) ij).1 ij = none) ∧
    (0 ≤ t ∧ t ≤ 1) ∧
    distSq (pos ij.1) (segPoint (pos ij.1) (pos ij.2) t) =
      t ^ 2 * distSq (pos ij.1) (pos ij.2) := by
  have hps := pairStep_not_skipped msqrt r now pos col op (m, acc) ij hd hoi hoj
  have hpb := pairBroken_none r now m ij (pos ij.1) (pos ij.2) sd t hM hprobe
  refine ⟨?_, ?_, distanceSqToSegment_t_mem r (pos ij.1) (pos ij.2) sd t hprobe,
    distSq_segPoint (pos ij.1) (pos ij.2) t⟩
  · intro hhit
    rw [hps]
    simp only
    rw [hpb, if_pos hhit]
    exact lookupBroken_insert m ij ⟨now, max (1 / 100) (min (99 / 100) t)⟩
  · intro hmiss
    rw [hps]
    simp only
    rw [hpb, if_neg hmiss]
    exact hM

/-- Counterexample to claim C1 as stated: a ray crossing the segment from
(0,0,0) to (1,0,0) exactly at parameter t = 1/20 = 0.05 (squared distance 0,
below lineHitRadius squared) does create a BrokenState in the tick, with
ratio clamped to 1/20, even though 0.05 lies outside the open interval
(0.1, 0.9); the code performs no t-window check. -/
theorem claim_C1_counterexample :
    Ray3.distanceSqToSegment ⟨⟨1 / 20, 0, -1⟩, ⟨0, 0, 1⟩⟩ ⟨0, 0, 0⟩ ⟨1, 0, 0⟩ =
      some (0, 1 / 20) ∧
    ¬((1 : ℚ) / 10 < 1 / 20 ∧ (1 : ℚ) / 20 < 9 / 10) ∧
    lookupBroken
      (pairStep (fun _ => 1) ⟨⟨1 / 20, 0, -1⟩, ⟨0, 0, 1⟩⟩ 0
        (fun n => if n = 0 then ⟨0, 0, 0⟩ else ⟨1, 0, 0⟩) (fun _ => ⟨1, 1, 1⟩)
        (fun _ => 1) ([], []) (0, 1)).1 (0, 1) = some ⟨0, 1 / 20⟩ := by
  refine ⟨?_, by norm_num, ?_⟩
  · norm_num [Ray3.distanceSqToSegment, chooseBest, segRayGap, segPoint, rayPoint,
      clampQ, Vec3.normSq, Vec3.dot, Vec3.sub, Vec3.add, Vec3.smul]
  · norm_num [pairStep, pairBroken, pairVertices, lookupBroken, insertBroken,
      eraseBroken, distSq, Ray3.distanceSqToSegment, chooseBest, segRayGap,
      segPoint, rayPoint, clampQ, Vec3.normSq, Vec3.dot, Vec3.sub, Vec3.add,
      Vec3.smul]

/-- Witness for claim C1 (amended) at concrete inputs: a ray crossing the
segment from (0,0,0) to (1,0,0) at parameter t = 1/2 creates a BrokenState
immediately, with ratio the clamp of 1/2. -/
theorem claim_C1_witness :
    Ray3.distanceSqToSegment ⟨⟨1 / 2, 0, -1⟩, ⟨0, 0, 1⟩⟩ ⟨0, 0, 0⟩ ⟨1, 0, 0⟩ =
      some (0, 1 / 2) ∧
    (0 : ℚ) < 1 / 25 ∧
    lookupBroken
      (pairStep (fun _ => 1) ⟨⟨1 / 2, 0, -1⟩, ⟨0, 0, 1⟩⟩ 0
        (fun n => if n = 0 then ⟨0, 0, 0⟩ else ⟨1, 0, 0⟩) (fun _ => ⟨1, 1, 1⟩)
        (fun _ => 1) ([], []) (0, 1)).1 (0, 1) =
      some ⟨0, max (1 / 100) (min (99 / 100) (1 / 2))⟩ := by
  have hprobe : Ray3.distanceSqToSegment ⟨⟨1 / 2, 0, -1⟩, ⟨0, 0, 1⟩⟩
      ((fun n : ℕ => if n = 0 then (⟨0, 0, 0⟩ : Vec3) else ⟨1, 0, 0⟩) (0, 1).1)
      ((fun n : ℕ => if n = 0 then (⟨0, 0, 0⟩ : Vec3) else ⟨1, 0, 0⟩) (0, 1).2) =
      some (0, 1 / 2) := by
    norm_num [Ray3.distanceSqToSegment, chooseBest, segRayGap, segPoint, rayPoint,
      clampQ, Vec3.normSq, Vec3.dot, Vec3.sub, Vec3.add, Vec3.smul]
  refine ⟨hprobe, by norm_num, ?_⟩
  exact (claim_C1_cut_rule (fun _ => 1) ⟨⟨1 / 2, 0, -1⟩, ⟨0, 0, 1⟩⟩ 0
    (fun n => if n = 0 then ⟨0, 0, 0⟩ else ⟨1, 0, 0⟩) (fun _ => ⟨1, 1, 1⟩)
    (fun _ => 1) [] [] (0, 1) 0 (1 / 2) rfl hprobe
    (by norm_num [distSq, Vec3.normSq, Vec3.dot, Vec3.sub])
    (by norm_num) (by norm_num)).1 (by norm_num)

/-- Claim C2 (amended): a BrokenState entry older than the cooldown is
removed by the tick at the moment its pair passes the distance and
visibility pre-filters of the pair scan — and may be immediately replaced by
a fresh entry cut at the current time when the ray still hits the segment;
entries of pairs skipped by those pre-filters are not touched. -/
theorem claim_C2_cooldown_rule (msqrt : ℚ → ℚ) (r : Ray3) (now : ℚ)
    (pos : ℕ → Vec3) (col : ℕ → Color) (op : ℕ → ℚ)
    (m : BrokenMap) (acc : List LineVertex) (ij : ℕ × ℕ) (b : Broken)
    (hM : lookupBroken m ij = some b)
    (hage : now - b.brokenAt > 2)
    (hd : ¬distSq (pos ij.1) (pos ij.2) > 16)
    (hoi : ¬op ij.1 ≤ 1 / 100) (hoj : ¬op ij.2 ≤ 1 / 100) :
    lookupBroken (pairStep msqrt r now pos col op (m, acc) ij).1 ij = none ∨
    (∃ b2 : Broken,
      lookupBroken (pairStep msqrt r now pos col op (m, acc) ij).1 ij = some b2 ∧
      b2.brokenAt = now) := by
  have hps := pairStep_not_skipped msqrt r now pos col op (m, acc) ij hd hoi hoj
  rw [hps]
  simp only
  have hcool : pairBroken r now m ij (pos ij.1) (pos ij.2) =
      (match Ray3.distanceSqToSegment r (pos ij.1) (pos ij.2) with
        | some (sd, t) =>
          if sd < 1 / 25 then
            (insertBroken (eraseBroken m ij) ij
                ⟨now, max (1 / 100) (min (99 / 100) t)⟩,
              some (⟨now, max (1 / 100) (min (99 / 100) t)⟩ : Broken))
          else (eraseBroken m ij, none)
        | none => (eraseBroken m ij, none)) := by
    simp only [pairBroken, hM, if_pos hage]
  rw [hcool]
  rcases hpr : Ray3.distanceSqToSegment r (pos ij.1) (pos ij.2) with _ | ⟨sd, t⟩
  · left
    exact lookupBroken_erase m ij
  · by_cases hhit : sd < 1 / 25
    · right
      refine ⟨⟨now, max (1 / 100) (min (99 / 100) t)⟩, ?_, rfl⟩
      simp only [if_pos hhit]
      exact lookupBroken_insert (eraseBroken m ij) ij _
    · left
      simp only [if_neg hhit]
      exact lookupBroken_erase m ij

/-- Counterexample to claim C2 as stated: with two nodes at squared distance
25 > 16, a tick at time 5 leaves the BrokenState entry cut at time 0 in the
map untouched, so after the tick the map holds an entry of age 5, far beyond
the cooldown of 2 — deletion is not independent of the endpoint distance,
because the distance filter runs before the cooldown check. -/
theorem claim_C2_counterexample :
    distSq ⟨0, 0, 0⟩ ⟨5, 0, 0⟩ > 16 ∧
    lookupBroken
      (lineLoop (fun _ => 0) ⟨⟨0, 0, 100⟩, ⟨0, 0, 1⟩⟩ 5 2
        (fun n => if n = 0 then ⟨0, 0, 0⟩ else ⟨5, 0, 0⟩) (fun _ => ⟨1, 1, 1⟩)
        (fun _ => 1) [((0, 1), ⟨0, 1 / 2⟩)]).1 (0, 1) = some ⟨0, 1 / 2⟩ ∧
    ¬((5 : ℚ) - 0 ≤ 2) := by
  have hpl : pairList 2 = [(0, 1)] := rfl
  refine ⟨by norm_num [distSq, Vec3.normSq, Vec3.dot, Vec3.sub], ?_, by norm_num⟩
  simp only [lineLoop, hpl, List.foldl_cons, List.foldl_nil]
  norm_num [pairStep, distSq, Vec3.normSq, Vec3.dot, Vec3.sub, lookupBroken]

/-- Witness for claim C2 (amended) at concrete inputs: two visible nodes at
squared distance 9, a stale entry cut at time 0, tick at time 5, ray far
away: the entry is deleted (or replaced by a fresh cut, which the far ray
rules out here). -/
theorem claim_C2_witness :
    lookupBroken ([((0, 1), ⟨0, 1 / 2⟩)] : BrokenMap) (0, 1) = some ⟨0, 1 / 2⟩ ∧
    (5 : ℚ) - 0 > 2 ∧
    (lookupBroken
        (pairStep (fun _ => 0) ⟨⟨0, 0, 100⟩, ⟨0, 0, 1⟩⟩ 5
          (fun n => if n = 0 then ⟨0, 0, 0⟩ else ⟨3, 0, 0⟩) (fun _ => ⟨1, 1, 1⟩)
          (fun _ => 1) ([((0, 1), ⟨0, 1 / 2⟩)], []) (0, 1)).1 (0, 1) = none ∨
      (∃ b2 : Broken,
        lookupBroken
          (pairStep (fun _ => 0) ⟨⟨0, 0, 100⟩, ⟨0, 0, 1⟩⟩ 5
            (fun n => if n = 0 then ⟨0, 0, 0⟩ else ⟨3, 0, 0⟩) (fun _ => ⟨1, 1, 1⟩)
            (fun _ => 1) ([((0, 1), ⟨0, 1 / 2⟩)], []) (0, 1)).1 (0, 1) = some b2 ∧
        b2.brokenAt = 5)) :=
  ⟨rfl, by norm_num,
    claim_C2_cooldown_rule (fun _ => 0) ⟨⟨0, 0, 100⟩, ⟨0, 0, 1⟩⟩ 5
      (fun n => if n = 0 then ⟨0, 0, 0⟩ else ⟨3, 0, 0⟩) (fun _ => ⟨1, 1, 1⟩)
      (fun _ => 1) [((0, 1), ⟨0, 1 / 2⟩)] [] (0, 1) ⟨0, 1 / 2⟩ rfl (by norm_num)
      (by norm_num [distSq, Vec3.normSq, Vec3.dot, Vec3.sub])
      (by norm_num) (by norm_num)⟩

/-- Claim C5: each trajectory advances per tick by exactly one forward-Euler
step of the Lorenz system with sigma = 10, rho = 28, beta = 8/3, and for a
fixed dt and initial point the position after K steps is the deterministic
reference Euler trajectory: the implementation step iterated K times equals
the spec-reference step iterated K times. -/
theorem claim_C5_lorenz_euler (dt : ℚ) (p : Vec3) (K : ℕ) (msqrt : ℚ → ℚ)
    (cSlow cFast : Color) (t : Traj) :
    (stepTraj msqrt cSlow cFast t).current = lorenzStep t.sigma t.rho t.beta t.dt t.current ∧
    (lorenzStep 10 28 (8 / 3) dt)^[K] p = (lorenzStepSpec 10 28 (8 / 3) dt)^[K] p := by
  constructor
  · rfl
  · have h : lorenzStep 10 28 (8 / 3) dt = lorenzStepSpec 10 28 (8 / 3) dt :=
      funext fun q => rfl
    rw [h]

set_option maxHeartbeats 1000000 in
/-- Claim C7: each emission writes the new particle (age 0, given position,
velocity, lifetime, size) into the slot under the cursor and then advances
the cursor by one mod the capacity; aging never moves the cursor; and with
capacity 10, emitting 15 particles sequentially with no aging in between
leaves exactly the 10 most recently emitted particles in the pool, the first
5 overwritten. -/
theorem claim_C7_pool_overwrite (f : ℕ → EmitData) (cap : ℕ) (e : EmitData)
    (st : PoolState) (delta : ℚ) :
    emit cap e st =
      ⟨st.particles.set st.cursor (spawnParticle e), (st.cursor + 1) % cap⟩ ∧
    (agePass delta st).cursor = st.cursor ∧
    (emitAll 10 ((List.range 15).map f) ⟨List.replicate 10 deadParticle, 0⟩).particles =
      [spawnParticle (f 10), spawnParticle (f 11), spawnParticle (f 12),
       spawnParticle (f 13), spawnParticle (f 14), spawnParticle (f 5),
       spawnParticle (f 6), spawnParticle (f 7), spawnParticle (f 8),
       spawnParticle (f 9)] ∧
    (emitAll 10 ((List.range 15).map f) ⟨List.replicate 10 deadParticle, 0⟩).cursor = 5 := by
  refine ⟨rfl, rfl, ?_, ?_⟩
  · simp [emitAll, emit, List.range_succ]
  · simp [emitAll, emit, List.range_succ]

/-- Claim C3: an alive node whose squared distance to the pointer ray is
below the point hit radius squared transitions to dying with the hit
timestamp set to now and velocity zeroed; a dying node returns to alive
exactly when the elapsed time exceeds the respawn duration, otherwise it
keeps zero velocity and stays dying; on respawn it takes the freshly
randomized position (integrated once) and velocity.  The dying branch is
fully characterised without reference to the ray, so a dying node is never
re-hit. -/
theorem claim_C3_node_state_machine (r : Ray3) (now : ℚ) (fp fv : Vec3) (n : NNode) :
    (n.status = NodeStatus.alive → Ray3.distanceSqToPoint r n.pos < 4 / 25 →
      updateNode r now fp fv n = ⟨n.pos, Vec3.zero, NodeStatus.dying, now⟩) ∧
    (n.status = NodeStatus.dying →
      ((updateNode r now fp fv n).status = NodeStatus.alive ↔ now - n.hitTime > 3)) ∧
    (n.status = NodeStatus.dying → ¬now - n.hitTime > 3 →
      updateNode r now fp fv n = ⟨n.pos, Vec3.zero, NodeStatus.dying, n.hitTime⟩) ∧
    (n.status = NodeStatus.dying → now - n.hitTime > 3 →
      updateNode r now fp fv n = ⟨Vec3.add fp fv, fv, NodeStatus.alive, n.hitTime⟩) := by
  obtain ⟨p, v, s, htm⟩ := n
  refine ⟨?_, ?_, ?_, ?_⟩
  · intro hs hhit
    cases hs
    unfold updateNode
    simp only
    rw [if_pos hhit]
  · intro hs
    cases hs
    unfold updateNode
    simp only
    by_cases hresp : now - htm > 3
    · rw [if_pos hresp]
      simpa using hresp
    · rw [if_neg hresp]
      simpa using hresp
  · intro hs hresp
    cases hs
    unfold updateNode
    simp only
    rw [if_neg hresp]
  · intro hs hresp
    cases hs
    unfold updateNode
    simp only
    rw [if_pos hresp]

/-- Witness for claim C3 at concrete inputs: a node at the origin hit by a
ray through the origin dies with zeroed velocity; a dying node one second
after its hit stays dying with zero velocity; a dying node five seconds
after its hit respawns with the injected fresh position and velocity. -/
theorem claim_C3_witness :
    (Ray3.distanceSqToPoint ⟨⟨0, 0, -1⟩, ⟨0, 0, 1⟩⟩ (⟨0, 0, 0⟩ : Vec3) < 4 / 25 ∧
      updateNode ⟨⟨0, 0, -1⟩, ⟨0, 0, 1⟩⟩ 7 ⟨2, 2, 2⟩ ⟨1 / 100, 0, 0⟩
          ⟨⟨0, 0, 0⟩, ⟨1, 1, 1⟩, NodeStatus.alive, 0⟩ =
        ⟨⟨0, 0, 0⟩, Vec3.zero, NodeStatus.dying, 7⟩) ∧
    (¬(1 : ℚ) - 0 > 3 ∧
      updateNode ⟨⟨0, 0, -1⟩, ⟨0, 0, 1⟩⟩ 1 ⟨2, 2, 2⟩ ⟨1 / 100, 0, 0⟩
          ⟨⟨5, 0, 0⟩, ⟨1, 1, 1⟩, NodeStatus.dying, 0⟩ =
        ⟨⟨5, 0, 0⟩, Vec3.zero, NodeStatus.dying, 0⟩) ∧
    ((5 : ℚ) - 0 > 3 ∧
      updateNode ⟨⟨0, 0, -1⟩, ⟨0, 0, 1⟩⟩ 5 ⟨2, 2, 2⟩ ⟨1 / 100, 0, 0⟩
          ⟨⟨5, 0, 0⟩, ⟨1, 1, 1⟩, NodeStatus.dying, 0⟩ =
        ⟨Vec3.add ⟨2, 2, 2⟩ ⟨1 / 100, 0, 0⟩, ⟨1 / 100, 0, 0⟩, NodeStatus.alive, 0⟩) :=
  ⟨⟨by norm_num [Ray3.distanceSqToPoint, Vec3.normSq, Vec3.dot, Vec3.sub],
    (claim_C3_node_state_machine ⟨⟨0, 0, -1⟩, ⟨0, 0, 1⟩⟩ 7 ⟨2, 2, 2⟩ ⟨1 / 100, 0, 0⟩
      ⟨⟨0, 0, 0⟩, ⟨1, 1, 1⟩, NodeStatus.alive, 0⟩).1 rfl
      (by norm_num [Ray3.distanceSqToPoint, Vec3.normSq, Vec3.dot, Vec3.sub])⟩,
   ⟨by norm_num,
    (claim_C3_node_state_machine ⟨⟨0, 0, -1⟩, ⟨0, 0, 1⟩⟩ 1 ⟨2, 2, 2⟩ ⟨1 / 100, 0, 0⟩
      ⟨⟨5, 0, 0⟩, ⟨1, 1, 1⟩, NodeStatus.dying, 0⟩).2.2.1 rfl (by norm_num)⟩,
   ⟨by norm_num,
    (claim_C3_node_state_machine ⟨⟨0, 0, -1⟩, ⟨0, 0, 1⟩⟩ 5 ⟨2, 2, 2⟩ ⟨1 / 100, 0, 0⟩
      ⟨⟨5, 0, 0⟩, ⟨1, 1, 1⟩, NodeStatus.dying, 0⟩).2.2.2 rfl (by norm_num)⟩⟩

/-- Claim C6: the trail history buffer holds exactly trailLength = 120 valid
samples at every tick starting from tick 0: at construction all 120 slots are
pre-filled with the transformed starting position, and every step shifts the
position and color ring buffers by one slot (newest sample at index 0, the
oldest dropped) and writes the new transformed Euler sample at index 0. -/
theorem claim_C6_trail_ring (p : Vec3) (dt : ℚ) (msqrt : ℚ → ℚ) (cSlow cFast : Color) :
    (∀ k, k < 120 → (initTraj p dt cSlow).history[k]? = some (transformPos p)) ∧
    (∀ K, ((stepTraj msqrt cSlow cFast)^[K] (initTraj p dt cSlow)).history.length = 120 ∧
      ((stepTraj msqrt cSlow cFast)^[K] (initTraj p dt cSlow)).baseColors.length = 120) ∧
    (∀ t : Traj,
      (stepTraj msqrt cSlow cFast t).history[0]? =
        some (transformPos (lorenzStep t.sigma t.rho t.beta t.dt t.current)) ∧
      (∀ k, k < 119 →
        (stepTraj msqrt cSlow cFast t).history[k + 1]? = t.history[k]? ∧
        (stepTraj msqrt cSlow cFast t).baseColors[k + 1]? = t.baseColors[k]?)) := by
  refine ⟨?_, ?_, ?_⟩
  · intro k hk
    simp only [initTraj]
    rw [List.getElem?_replicate, if_pos hk]
  · intro K
    induction K with
    | zero =>
      constructor <;> simp [initTraj]
    | succ m ih =>
      rw [Function.iterate_succ_apply']
      constructor
      · simp only [stepTraj]
        simp [List.length_take, ih.1]
      · simp only [stepTraj]
        simp [List.length_take, ih.2]
  · intro t
    constructor
    · simp only [stepTraj, lorenzStep]
      rw [List.getElem?_cons_zero]
    · intro k hk
      constructor
      · simp only [stepTraj]
        rw [List.getElem?_cons_succ, List.getElem?_take, if_pos hk]
      · simp only [stepTraj]
        rw [List.getElem?_cons_succ, List.getElem?_take, if_pos hk]

/-- Witness for claim C6 at concrete inputs: the freshly constructed
trajectory has the transformed start in slot 0, after one step both ring
buffers still hold 120 samples, and the step moved the old slot 0 into
slot 1. -/
theorem claim_C6_witness :
    (initTraj ⟨1, 2, 3⟩ (1 / 250) ⟨0, 0, 0⟩).history[0]? =
      some (transformPos ⟨1, 2, 3⟩) ∧
    ((stepTraj (fun _ => 0) ⟨0, 0, 0⟩ ⟨1, 1, 1⟩)^[1]
      (initTraj ⟨1, 2, 3⟩ (1 / 250) ⟨0, 0, 0⟩)).history.length = 120 ∧
    (stepTraj (fun _ => 0) ⟨0, 0, 0⟩ ⟨1, 1, 1⟩
        (initTraj ⟨1, 2, 3⟩ (1 / 250) ⟨0, 0, 0⟩)).history[1]? =
      (initTraj ⟨1, 2, 3⟩ (1 / 250) ⟨0, 0, 0⟩).history[0]? :=
  ⟨(claim_C6_trail_ring ⟨1, 2, 3⟩ (1 / 250) (fun _ => 0) ⟨0, 0, 0⟩ ⟨1, 1, 1⟩).1 0
      (by norm_num),
   ((claim_C6_trail_ring ⟨1, 2, 3⟩ (1 / 250) (fun _ => 0) ⟨0, 0, 0⟩ ⟨1, 1, 1⟩).2.1 1).1,
   (((claim_C6_trail_ring ⟨1, 2, 3⟩ (1 / 250) (fun _ => 0) ⟨0, 0, 0⟩ ⟨1, 1, 1⟩).2.2
      (initTraj ⟨1, 2, 3⟩ (1 / 250) ⟨0, 0, 0⟩)).2 0 (by norm_num)).1⟩

/-- Claim C8 (amended): for a scanned pair with no BrokenState (and the ray
not cutting it this tick): no edge vertices are emitted when the squared
distance exceeds maxConnectionDistance squared (16) or either endpoint
opacity is at most 0.01; otherwise one full segment is emitted with each
vertex carrying its endpoint color and alpha = distAlpha times the endpoint
opacity, where distAlpha = max(0, 1 - sqrt(distSq)/4) — and the emission
condition is distAlpha > 0.01, the distance factor alone, not the per-vertex
alpha product. -/
theorem claim_C8_full_segment_rule (msqrt : ℚ → ℚ) (r : Ray3) (now : ℚ)
    (pos : ℕ → Vec3) (col : ℕ → Color) (op : ℕ → ℚ)
    (m : BrokenMap) (acc : List LineVertex) (ij : ℕ × ℕ) (sd t : ℚ)
    (hM : lookupBroken m ij = none)
    (hprobe : Ray3.distanceSqToSegment r (pos ij.1) (pos ij.2) = some (sd, t))
    (hmiss : ¬sd < 1 / 25) :
    (distSq (pos ij.1) (pos ij.2) > 16 ∨ op ij.1 ≤ 1 / 100 ∨ op ij.2 ≤ 1 / 100 →
      pairStep msqrt r now pos col op (m, acc) ij = (m, acc)) ∧
    (¬distSq (pos ij.1) (pos ij.2) > 16 → ¬op ij.1 ≤ 1 / 100 → ¬op ij.2 ≤ 1 / 100 →
      (max 0 (1 - msqrt (distSq (pos ij.1) (pos ij.2)) / 4) > 1 / 100 →
        pairStep msqrt r now pos col op (m, acc) ij =
          (m, acc ++
            [⟨pos ij.1, col ij.1,
               max 0 (1 - msqrt (distSq (pos ij.1) (pos ij.2)) / 4) * op ij.1⟩,
             ⟨pos ij.2, col ij.2,
               max 0 (1 - msqrt (distSq (pos ij.1) (pos ij.2)) / 4) * op ij.2⟩])) ∧
      (¬max 0 (1 - msqrt (distSq (pos ij.1) (pos ij.2)) / 4) > 1 / 100 →
        pairStep msqrt r now pos col op (m, acc) ij = (m, acc))) := by
  constructor
  · intro hskip
    by_cases hgt : distSq (pos ij.1) (pos ij.2) > 16
    · simp only [pairStep]
      rw [if_pos hgt]
    · have hops : op ij.1 ≤ 1 / 100 ∨ op ij.2 ≤ 1 / 100 := by
        rcases hskip with h | h | h
        · exact absurd h hgt
        · exact Or.inl h
        · exact Or.inr h
      simp only [pairStep]
      rw [if_neg hgt, if_pos hops]
  · intro hd hoi hoj
    have hps := pairStep_not_skipped msqrt r now pos col op (m, acc) ij hd hoi hoj
    have hpb := pairBroken_none r now m ij (pos ij.1) (pos ij.2) sd t hM hprobe
    rw [if_neg hmiss] at hpb
    constructor
    · intro hda
      rw [hps]
      simp only [hpb, pairVertices]
      rw [if_pos hda]
    · intro hda
      rw [hps]
      simp only [hpb, pairVertices]
      rw [if_neg hda]
      simp

/-- Counterexample to claim C8 as stated: nodes at (0,0,0) and (98/25,0,0)
(true distance 98/25, a perfect square root of the squared distance, so the
constant function modelling Math.sqrt is exact here), endpoint opacities 1/2
and 1, ray far away: the pair IS emitted — distAlpha = 1/50 > 0.01 — yet the
first vertex alpha is distAlpha times 1/2 = 1/100, which is NOT greater than
0.01, refuting the claim that a segment is emitted only if the per-endpoint
alpha exceeds 0.01. -/
theorem claim_C8_counterexample :
    ((98 : ℚ) / 25) ^ 2 = distSq ⟨0, 0, 0⟩ ⟨98 / 25, 0, 0⟩ ∧
    (0 : ℚ) ≤ 98 / 25 ∧
    (pairStep (fun _ => 98 / 25) ⟨⟨0, 0, 100⟩, ⟨0, 0, 1⟩⟩ 0
        (fun n => if n = 0 then ⟨0, 0, 0⟩ else ⟨98 / 25, 0, 0⟩) (fun _ => ⟨1, 1, 1⟩)
        (fun n => if n = 0 then 1 / 2 else 1) ([], []) (0, 1)).2 =
      [⟨⟨0, 0, 0⟩, ⟨1, 1, 1⟩, 1 / 100⟩, ⟨⟨98 / 25, 0, 0⟩, ⟨1, 1, 1⟩, 1 / 50⟩] ∧
    ¬((1 : ℚ) / 100 > 1 / 100) := by
  refine ⟨by norm_num [distSq, Vec3.normSq, Vec3.dot, Vec3.sub], by norm_num, ?_,
    by norm_num⟩
  norm_num [pairStep, pairBroken, pairVertices, lookupBroken, insertBroken,
    eraseBroken, distSq, Ray3.distanceSqToSegment, chooseBest, segRayGap,
    segPoint, rayPoint, clampQ, Vec3.normSq, Vec3.dot, Vec3.sub, Vec3.add,
    Vec3.smul]

/-- Witness for claim C8 (amended) at concrete inputs: nodes at (0,0,0) and
(10,10,10) with maxConnectionDistance 4 (squared distance 300 > 16) produce
zero emitted edge vertices for that pair. -/
theorem claim_C8_witness :
    distSq ⟨0, 0, 0⟩ ⟨10, 10, 10⟩ > 16 ∧
    pairStep (fun _ => 0) ⟨⟨0, 0, 100⟩, ⟨0, 0, 1⟩⟩ 0
      (fun n => if n = 0 then ⟨0, 0, 0⟩ else ⟨10, 10, 10⟩) (fun _ => ⟨1, 1, 1⟩)
      (fun _ => 1) ([], []) (0, 1) = ([], []) :=
  ⟨by norm_num [distSq, Vec3.normSq, Vec3.dot, Vec3.sub],
    (claim_C8_full_segment_rule (fun _ => 0) ⟨⟨0, 0, 100⟩, ⟨0, 0, 1⟩⟩ 0
      (fun n => if n = 0 then ⟨0, 0, 0⟩ else ⟨10, 10, 10⟩) (fun _ => ⟨1, 1, 1⟩)
      (fun _ => 1) [] [] (0, 1) 8300 1 rfl
      (by norm_num [Ray3.distanceSqToSegment, chooseBest, segRayGap, segPoint,
        rayPoint, clampQ, Vec3.normSq, Vec3.dot, Vec3.sub, Vec3.add, Vec3.smul])
      (by norm_num)).1
      (Or.inl (by norm_num [distSq, Vec3.normSq, Vec3.dot, Vec3.sub]))⟩

/-- Claim C9: a tick leaves the position of a node that is dying and not yet
due to respawn unchanged in all three components, because its velocity is
forced to zero before the position integration; the tick on which an alive
node is hit also leaves its position unchanged. -/
theorem claim_C9_dying_position_frozen (r : Ray3) (now : ℚ) (fp fv : Vec3) (n : NNode) :
    (n.status = NodeStatus.dying → ¬now - n.hitTime > 3 →
      (updateNode r now fp fv n).pos = n.pos ∧ (updateNode r now fp fv n).vel = Vec3.zero) ∧
    (n.status = NodeStatus.alive → Ray3.distanceSqToPoint r n.pos < 4 / 25 →
      (updateNode r now fp fv n).pos = n.pos) := by
  obtain ⟨p, v, s, htm⟩ := n
  constructor
  · intro hs hresp
    cases hs
    unfold updateNode
    simp only
    rw [if_neg hresp]
    exact ⟨rfl, rfl⟩
  · intro hs hhit
    cases hs
    unfold updateNode
    simp only
    rw [if_pos hhit]

/-- Witness for claim C9 at concrete inputs: a dying node one second after
its hit keeps its position and has zero velocity; an alive node at the origin
hit by a ray through the origin keeps its position on the hit tick. -/
theorem claim_C9_witness :
    (¬(1 : ℚ) - 0 > 3 ∧
      (updateNode ⟨⟨0, 0, -1⟩, ⟨0, 0, 1⟩⟩ 1 ⟨2, 2, 2⟩ ⟨1 / 100, 0, 0⟩
          ⟨⟨7, 8, 9⟩, ⟨1, 1, 1⟩, NodeStatus.dying, 0⟩).pos = (⟨7, 8, 9⟩ : Vec3) ∧
      (updateNode ⟨⟨0, 0, -1⟩, ⟨0, 0, 1⟩⟩ 1 ⟨2, 2, 2⟩ ⟨1 / 100, 0, 0⟩
          ⟨⟨7, 8, 9⟩, ⟨1, 1, 1⟩, NodeStatus.dying, 0⟩).vel = Vec3.zero) ∧
    (Ray3.distanceSqToPoint ⟨⟨0, 0, -1⟩, ⟨0, 0, 1⟩⟩ (⟨0, 0, 0⟩ : Vec3) < 4 / 25 ∧
      (updateNode ⟨⟨0, 0, -1⟩, ⟨0, 0, 1⟩⟩ 1 ⟨2, 2, 2⟩ ⟨1 / 100, 0, 0⟩
          ⟨⟨0, 0, 0⟩, ⟨1, 1, 1⟩, NodeStatus.alive, 0⟩).pos = (⟨0, 0, 0⟩ : Vec3)) :=
  ⟨⟨by norm_num,
    ((claim_C9_dying_position_frozen ⟨⟨0, 0, -1⟩, ⟨0, 0, 1⟩⟩ 1 ⟨2, 2, 2⟩ ⟨1 / 100, 0, 0⟩
      ⟨⟨7, 8, 9⟩, ⟨1, 1, 1⟩, NodeStatus.dying, 0⟩).1 rfl (by norm_num)).1,
    ((claim_C9_dying_position_frozen ⟨⟨0, 0, -1⟩, ⟨0, 0, 1⟩⟩ 1 ⟨2, 2, 2⟩ ⟨1 / 100, 0, 0⟩
      ⟨⟨7, 8, 9⟩, ⟨1, 1, 1⟩, NodeStatus.dying, 0⟩).1 rfl (by norm_num)).2⟩,
   ⟨by norm_num [Ray3.distanceSqToPoint, Vec3.normSq, Vec3.dot, Vec3.sub],
    (claim_C9_dying_position_frozen ⟨⟨0, 0, -1⟩, ⟨0, 0, 1⟩⟩ 1 ⟨2, 2, 2⟩ ⟨1 / 100, 0, 0⟩
      ⟨⟨0, 0, 0⟩, ⟨1, 1, 1⟩, NodeStatus.alive, 0⟩).2 rfl
      (by norm_num [Ray3.distanceSqToPoint, Vec3.normSq, Vec3.dot, Vec3.sub])⟩⟩

/-- The hit timestamp of a node never runs ahead of the clock: a hit stamps
the current time, every other branch keeps the old stamp. -/
theorem updateNode_hitTime_le (r : Ray3) (now : ℚ) (fp fv : Vec3) (n : NNode)
    (hn : n.hitTime ≤ now) : (updateNode r now fp fv n).hitTime ≤ now := by
  obtain ⟨p, v, s, htm⟩ := n
  cases s
  · unfold updateNode
    simp only
    split
    · exact le_refl now
    · exact hn
  · unfold updateNode
    simp only
    split
    · exact hn
    · exact hn

/-- Point opacities lie in the unit interval as long as the hit timestamp is
not in the future. -/
theorem nodeOpacity_mem (now : ℚ) (n : NNode) (hn : n.hitTime ≤ now) :
    0 ≤ nodeOpacity now n ∧ nodeOpacity now n ≤ 1 := by
  obtain ⟨p, v, s, htm⟩ := n
  cases s
  · unfold nodeOpacity
    simp only
    norm_num
  · unfold nodeOpacity
    simp only
    constructor
    · exact le_max_left 0 _
    · apply max_le
      · norm_num
      · have h0 : 0 ≤ now - htm := by
          have : htm ≤ now := hn
          linarith
        have h1 : 0 ≤ (now - htm) / (1 / 2) := by positivity
        linarith

/-- Every vertex alpha emitted for one pair is a product of the distance
factor and the endpoint opacity, both in the unit interval. -/
theorem pairVertices_alpha_mem (msqrt : ℚ → ℚ) (now : ℚ) (pi pj : Vec3)
    (ci cj : Color) (oi oj : ℚ) (bs : Option Broken)
    (hms : 0 ≤ msqrt (distSq pi pj))
    (hoi : 0 ≤ oi ∧ oi ≤ 1) (hoj : 0 ≤ oj ∧ oj ≤ 1) :
    ∀ v ∈ pairVertices msqrt now pi pj ci cj oi oj bs,
      0 ≤ v.alpha ∧ v.alpha ≤ 1 := by
  have hda0 : 0 ≤ max 0 (1 - msqrt (distSq pi pj) / 4) := le_max_left _ _
  have hda1 : max 0 (1 - msqrt (distSq pi pj) / 4) ≤ 1 := by
    apply max_le
    · norm_num
    · have h1 : 0 ≤ msqrt (distSq pi pj) / 4 := by positivity
      linarith
  have hbound : ∀ o : ℚ, 0 ≤ o ∧ o ≤ 1 →
      0 ≤ max 0 (1 - msqrt (distSq pi pj) / 4) * o ∧
      max 0 (1 - msqrt (distSq pi pj) / 4) * o ≤ 1 := by
    intro o ho
    constructor
    · exact mul_nonneg hda0 ho.1
    · calc max 0 (1 - msqrt (distSq pi pj) / 4) * o ≤ 1 * 1 :=
            mul_le_mul hda1 ho.2 ho.1 zero_le_one
        _ = 1 := by norm_num
  intro v hv
  unfold pairVertices at hv
  rcases bs with _ | b
  · simp only at hv
    split at hv
    · simp only [List.mem_cons, List.not_mem_nil, or_false] at hv
      rcases hv with rfl | rfl
      · exact hbound oi hoi
      · exact hbound oj hoj
    · simp at hv
  · simp only at hv
    split at hv
    · simp only [List.mem_cons, List.not_mem_nil, or_false] at hv
      rcases hv with rfl | rfl | rfl | rfl
      · exact hbound oi hoi
      · exact hbound oi hoi
      · exact hbound oj hoj
      · exact hbound oj hoj
    · simp at hv

/-- The whole pair scan preserves the unit-interval bound on every emitted
vertex alpha. -/
theorem lineLoop_alpha_inv (msqrt : ℚ → ℚ) (r : Ray3) (now : ℚ)
    (pos : ℕ → Vec3) (col : ℕ → Color) (op : ℕ → ℚ)
    (hms : ∀ q : ℚ, 0 ≤ q → 0 ≤ msqrt q)
    (hop : ∀ i : ℕ, 0 ≤ op i ∧ op i ≤ 1) :
    ∀ (L : List (ℕ × ℕ)) (st : BrokenMap × List LineVertex),
      (∀ v ∈ st.2, 0 ≤ v.alpha ∧ v.alpha ≤ 1) →
      ∀ v ∈ (L.foldl (pairStep msqrt r now pos col op) st).2,
        0 ≤ v.alpha ∧ v.alpha ≤ 1 := by
  intro L
  induction L with
  | nil => intro st h; exact h
  | cons hd tl ih =>
    intro st h
    rw [List.foldl_cons]
    apply ih
    by_cases h1 : distSq (pos hd.1) (pos hd.2) > 16
    · simp only [pairStep]
      rw [if_pos h1]
      exact h
    · by_cases h2 : op hd.1 ≤ 1 / 100 ∨ op hd.2 ≤ 1 / 100
      · simp only [pairStep]
        rw [if_neg h1, if_pos h2]
        exact h
      · obtain ⟨hoi, hoj⟩ := not_or.mp h2
        rw [pairStep_not_skipped msqrt r now pos col op st hd h1 hoi hoj]
        intro v hv
        rcases List.mem_append.mp hv with hv1 | hv1
        · exact h v hv1
        · exact pairVertices_alpha_mem msqrt now (pos hd.1) (pos hd.2)
            (col hd.1) (col hd.2) (op hd.1) (op hd.2) _
            (hms _ (distSq_nonneg _ _)) (hop hd.1) (hop hd.2) v hv1

/-- Claim C10: every opacity written by a tick lies in [0, 1] — alive nodes
get exactly 1, dying nodes get max(0, 1 - (now - hitTimestamp)/fadeDuration),
and every line-vertex alpha in the valid prefix is a product of a distance
factor and an endpoint opacity, each in [0, 1]. -/
theorem claim_C10_opacity_range (r : Ray3) (now : ℚ) (fp fv : Vec3) (nd : NNode)
    (msqrt : ℚ → ℚ) (r2 : Ray3) (now2 : ℚ) (n : ℕ) (pos : ℕ → Vec3)
    (col : ℕ → Color) (op : ℕ → ℚ) (m0 : BrokenMap)
    (hn : nd.hitTime ≤ now)
    (hms : ∀ q : ℚ, 0 ≤ q → 0 ≤ msqrt q)
    (hop : ∀ i : ℕ, 0 ≤ op i ∧ op i ≤ 1) :
    (0 ≤ nodeOpacity now (updateNode r now fp fv nd) ∧
      nodeOpacity now (updateNode r now fp fv nd) ≤ 1) ∧
    ((updateNode r now fp fv nd).status = NodeStatus.alive →
      nodeOpacity now (updateNode r now fp fv nd) = 1) ∧
    ((updateNode r now fp fv nd).status = NodeStatus.dying →
      nodeOpacity now (updateNode r now fp fv nd) =
        max 0 (1 - (now - (updateNode r now fp fv nd).hitTime) / (1 / 2))) ∧
    (∀ v ∈ (lineLoop msqrt r2 now2 n pos col op m0).2,
      0 ≤ v.alpha ∧ v.alpha ≤ 1) := by
  refine ⟨nodeOpacity_mem now (updateNode r now fp fv nd)
      (updateNode_hitTime_le r now fp fv nd hn), ?_, ?_, ?_⟩
  · intro hs
    simp only [nodeOpacity, hs]
  · intro hs
    simp only [nodeOpacity, hs]
  · exact lineLoop_alpha_inv msqrt r2 now2 pos col op hms hop (pairList n)
      (m0, []) (by intro v hv; simp at hv)

/-- Witness for claim C10 at concrete inputs: the opacity of a concrete
updated node lies in [0, 1], and the concrete emitted line vertex for two
visible nodes at distance 3 carries alpha 1, which lies in [0, 1]. -/
theorem claim_C10_witness :
    (0 ≤ nodeOpacity 1 (updateNode ⟨⟨0, 0, 100⟩, ⟨0, 0, 1⟩⟩ 1 ⟨0, 0, 0⟩ ⟨0, 0, 0⟩
        ⟨⟨0, 0, 0⟩, ⟨0, 0, 0⟩, NodeStatus.alive, 0⟩) ∧
      nodeOpacity 1 (updateNode ⟨⟨0, 0, 100⟩, ⟨0, 0, 1⟩⟩ 1 ⟨0, 0, 0⟩ ⟨0, 0, 0⟩
        ⟨⟨0, 0, 0⟩, ⟨0, 0, 0⟩, NodeStatus.alive, 0⟩) ≤ 1) ∧
    (0 ≤ (LineVertex.mk ⟨0, 0, 0⟩ ⟨1, 1, 1⟩ 1).alpha ∧
      (LineVertex.mk ⟨0, 0, 0⟩ ⟨1, 1, 1⟩ 1).alpha ≤ 1) :=
  ⟨(claim_C10_opacity_range ⟨⟨0, 0, 100⟩, ⟨0, 0, 1⟩⟩ 1 ⟨0, 0, 0⟩ ⟨0, 0, 0⟩
      ⟨⟨0, 0, 0⟩, ⟨0, 0, 0⟩, NodeStatus.alive, 0⟩ (fun _ => 0) ⟨⟨0, 0, 100⟩, ⟨0, 0, 1⟩⟩
      0 2 (fun k => if k = 0 then ⟨0, 0, 0⟩ else ⟨3, 0, 0⟩) (fun _ => ⟨1, 1, 1⟩)
      (fun _ => 1) [] (by norm_num) (fun q _ => le_refl 0)
      (fun i => ⟨zero_le_one, le_refl 1⟩)).1,
   (claim_C10_opacity_range ⟨⟨0, 0, 100⟩, ⟨0, 0, 1⟩⟩ 1 ⟨0, 0, 0⟩ ⟨0, 0, 0⟩
      ⟨⟨0, 0, 0⟩, ⟨0, 0, 0⟩, NodeStatus.alive, 0⟩ (fun _ => 0) ⟨⟨0, 0, 100⟩, ⟨0, 0, 1⟩⟩
      0 2 (fun k => if k = 0 then ⟨0, 0, 0⟩ else ⟨3, 0, 0⟩) (fun _ => ⟨1, 1, 1⟩)
      (fun _ => 1) [] (by norm_num) (fun q _ => le_refl 0)
      (fun i => ⟨zero_le_one, le_refl 1⟩)).2.2.2 ⟨⟨0, 0, 0⟩, ⟨1, 1, 1⟩, 1⟩
      (by
        have hpl : pairList 2 = [(0, 1)] := rfl
        simp only [lineLoop, hpl, List.foldl_cons, List.foldl_nil]
        norm_num [pairStep, pairBroken, pairVertices, lookupBroken, insertBroken,
          eraseBroken, distSq, Ray3.distanceSqToSegment, chooseBest, segRayGap,
          segPoint, rayPoint, clampQ, Vec3.normSq, Vec3.dot, Vec3.sub, Vec3.add,
          Vec3.smul])⟩

end Portfolio
